import Mathlib

/-!
Verification of the ALAN (Artificial Light At Night) critical-depth pipeline.

The development shallowly embeds the numerical core of `alan_tools/alan_tile.py`
and the batch driver `GetAlanTiles.py`.  Floating-point values are modelled by
the inductive type `FP` (NaN, signed infinity, or an exact real), with the
arithmetic, comparison, `exp` and `log` operations following IEEE-754
propagation rules as implemented by numpy (NaN silently propagates, division of
a nonzero value by zero gives a signed infinity, `0/0` gives NaN, comparisons
with NaN are false).  Rounding of finite values is not modelled: finite values
carry exact reals, which is the standard idealisation for claims about NaN
propagation, guard conditions and algebraic identities.
-/

namespace ALAN

/-- Model of an IEEE-754 double as used by numpy: NaN, a signed infinity
(`inf true` is +∞, `inf false` is -∞), or a finite value carrying an exact
real number. -/
inductive FP where
  | nan : FP
  | inf : Bool → FP
  | fin : ℝ → FP

/-- IEEE addition: NaN propagates, infinities of opposite sign give NaN. -/
noncomputable def fadd : FP → FP → FP
  | FP.nan, _ => FP.nan
  | _, FP.nan => FP.nan
  | FP.inf s, FP.inf t => if s = t then FP.inf s else FP.nan
  | FP.inf s, FP.fin _ => FP.inf s
  | FP.fin _, FP.inf t => FP.inf t
  | FP.fin a, FP.fin b => FP.fin (a + b)

/-- IEEE multiplication: NaN propagates, `0 * ∞` gives NaN, signs multiply. -/
noncomputable def fmul : FP → FP → FP
  | FP.nan, _ => FP.nan
  | _, FP.nan => FP.nan
  | FP.inf s, FP.inf t => FP.inf (s == t)
  | FP.inf s, FP.fin b => if b = 0 then FP.nan else FP.inf (s == decide (0 < b))
  | FP.fin a, FP.inf t => if a = 0 then FP.nan else FP.inf (t == decide (0 < a))
  | FP.fin a, FP.fin b => FP.fin (a * b)

/-- IEEE division: NaN propagates, `0/0` and `∞/∞` give NaN, a nonzero finite
value divided by zero gives a signed infinity, a finite value divided by an
infinity gives zero. -/
noncomputable def fdiv : FP → FP → FP
  | FP.nan, _ => FP.nan
  | _, FP.nan => FP.nan
  | FP.inf _, FP.inf _ => FP.nan
  | FP.inf s, FP.fin b => FP.inf (s == decide (0 ≤ b))
  | FP.fin _, FP.inf _ => FP.fin 0
  | FP.fin a, FP.fin b =>
    if b = 0 then (if a = 0 then FP.nan else FP.inf (decide (0 < a)))
    else FP.fin (a / b)

/-- IEEE strict greater-than as numpy evaluates it: any comparison involving
NaN is false. -/
noncomputable def fgt : FP → FP → Bool
  | FP.fin a, FP.fin b => decide (b < a)
  | FP.fin _, FP.inf s => !s
  | FP.inf s, FP.fin _ => s
  | FP.inf s, FP.inf t => s && !t
  | _, _ => false

/-- IEEE less-or-equal as numpy evaluates it: any comparison involving NaN is
false. -/
noncomputable def fle : FP → FP → Bool
  | FP.fin a, FP.fin b => decide (a ≤ b)
  | FP.fin _, FP.inf s => s
  | FP.inf s, FP.fin _ => !s
  | FP.inf s, FP.inf t => !s || t
  | _, _ => false

/-- IEEE equality as numpy evaluates it: NaN is not equal to anything,
including itself. -/
noncomputable def feq : FP → FP → Bool
  | FP.fin a, FP.fin b => decide (a = b)
  | FP.inf s, FP.inf t => s == t
  | _, _ => false

/-- The `np.isnan` predicate. -/
def isnan : FP → Bool
  | FP.nan => true
  | _ => false

/-- The `np.exp` function: `exp(NaN) = NaN`, `exp(+∞) = +∞`, `exp(-∞) = 0`,
finite arguments map through the real exponential. -/
noncomputable def fexp : FP → FP
  | FP.nan => FP.nan
  | FP.inf true => FP.inf true
  | FP.inf false => FP.fin 0
  | FP.fin a => FP.fin (Real.exp a)

/-- The `np.log` function: `log(NaN) = NaN`, `log(+∞) = +∞`, `log(-∞) = NaN`,
`log` of a negative value is NaN, `log 0 = -∞`, positive finite arguments map
through the real logarithm. -/
noncomputable def flog : FP → FP
  | FP.nan => FP.nan
  | FP.inf true => FP.inf true
  | FP.inf false => FP.nan
  | FP.fin a =>
    if a < 0 then FP.nan
    else if a = 0 then FP.inf false
    else FP.fin (Real.log a)

@[simp] theorem fadd_nan_left (x : FP) : fadd FP.nan x = FP.nan := by
  cases x <;> rfl

@[simp] theorem fadd_nan_right (x : FP) : fadd x FP.nan = FP.nan := by
  cases x <;> rfl

@[simp] theorem fmul_nan_left (x : FP) : fmul FP.nan x = FP.nan := by
  cases x <;> rfl

@[simp] theorem fmul_nan_right (x : FP) : fmul x FP.nan = FP.nan := by
  cases x <;> rfl

@[simp] theorem fdiv_nan_left (x : FP) : fdiv FP.nan x = FP.nan := by
  cases x <;> rfl

@[simp] theorem fdiv_nan_right (x : FP) : fdiv x FP.nan = FP.nan := by
  cases x <;> rfl

@[simp] theorem fadd_fin_fin (a b : ℝ) :
    fadd (FP.fin a) (FP.fin b) = FP.fin (a + b) := rfl

@[simp] theorem fmul_fin_fin (a b : ℝ) :
    fmul (FP.fin a) (FP.fin b) = FP.fin (a * b) := rfl

@[simp] theorem fgt_nan_left (x : FP) : fgt FP.nan x = false := by
  cases x <;> rfl

@[simp] theorem fgt_nan_right (x : FP) : fgt x FP.nan = false := by
  cases x <;> rfl

@[simp] theorem fgt_fin_fin (a b : ℝ) :
    fgt (FP.fin a) (FP.fin b) = decide (b < a) := rfl

@[simp] theorem fle_fin_fin (a b : ℝ) :
    fle (FP.fin a) (FP.fin b) = decide (a ≤ b) := rfl

@[simp] theorem isnan_nan : isnan FP.nan = true := rfl

@[simp] theorem isnan_fin (a : ℝ) : isnan (FP.fin a) = false := rfl

@[simp] theorem isnan_inf (s : Bool) : isnan (FP.inf s) = false := rfl

@[simp] theorem fexp_fin (a : ℝ) : fexp (FP.fin a) = FP.fin (Real.exp a) := rfl

theorem flog_fin_pos {a : ℝ} (h : 0 < a) :
    flog (FP.fin a) = FP.fin (Real.log a) := by
  simp [flog, not_lt.mpr h.le, h.ne']

theorem fdiv_fin_fin_of_ne {b : ℝ} (a : ℝ) (hb : b ≠ 0) :
    fdiv (FP.fin a) (FP.fin b) = FP.fin (a / b) := by
  simp [fdiv, hb]

/-- Inversion for IEEE addition: a finite sum can only come from two finite
summands adding to it. -/
theorem fadd_eq_fin {x y : FP} {s : ℝ} (h : fadd x y = FP.fin s) :
    ∃ a b : ℝ, x = FP.fin a ∧ y = FP.fin b ∧ a + b = s := by
  cases x with
  | nan => simp at h
  | inf sx =>
    cases y with
    | nan => simp at h
    | inf sy =>
      by_cases hs : sx = sy <;> simp [fadd, hs] at h
    | fin b => simp [fadd] at h
  | fin a =>
    cases y with
    | nan => simp at h
    | inf sy => simp [fadd] at h
    | fin b =>
      refine ⟨a, b, rfl, rfl, ?_⟩
      simpa [fadd] using h

/-- Shape of `fexp`: NaN, +∞, or a nonnegative finite value. -/
theorem fexp_shape (y : FP) :
    fexp y = FP.nan ∨ fexp y = FP.inf true ∨
      ∃ p : ℝ, fexp y = FP.fin p ∧ 0 ≤ p := by
  cases y with
  | nan => exact Or.inl rfl
  | inf s =>
    cases s with
    | true => exact Or.inr (Or.inl rfl)
    | false => exact Or.inr (Or.inr ⟨0, rfl, le_refl 0⟩)
  | fin a => exact Or.inr (Or.inr ⟨Real.exp a, rfl, (Real.exp_pos a).le⟩)

/-- Multiplying an infinity by an `fexp` value gives NaN or the same-signed
infinity: the exponential is never negative, so the sign is preserved. -/
theorem fmul_inf_fexp (s : Bool) (y : FP) :
    fmul (FP.inf s) (fexp y) = FP.nan ∨ fmul (FP.inf s) (fexp y) = FP.inf s := by
  rcases fexp_shape y with h | h | ⟨p, h, hp⟩ <;> rw [h]
  · exact Or.inl (by cases s <;> rfl)
  · exact Or.inr (by cases s <;> rfl)
  · rcases eq_or_lt_of_le hp with hp0 | hp0
    · exact Or.inl (by simp [fmul, hp0.symm])
    · refine Or.inr ?_
      simp [fmul, hp0.ne', hp0]

/-- Modelled from the spec: the module-level configuration constants imported
as `alan_tools.config` (the config module itself is not part of the sources
under verification).  The per-channel calibration slopes and intercepts and
the threshold irradiance are treated as real-valued parameters, mirroring the
spec's treatment of them as empirically tuned configuration. -/
structure Config where
  M_BLUE : ℝ
  C_BLUE : ℝ
  M_GREEN : ℝ
  C_GREEN : ℝ
  M_RED : ℝ
  C_RED : ℝ
  THRESH_IRR_TOTAL_UW_M2 : ℝ

/-- `ALANTile.mask_falchi`, elementwise:
`np.where(x <= FALCHI_MASK_THRESHOLD, np.nan, x)`. -/
noncomputable def mask_falchi (thresh : ℝ) (x : FP) : FP :=
  if fle x (FP.fin thresh) then FP.nan else x

/-- The fill-value scrub inside `ALANTile.get_kd_data`, elementwise:
`kd_roi.where(kd_roi != cfg.KD_FILLVAL)`, which keeps a cell where the IEEE
comparison `!=` holds and replaces it with NaN where the cell equals the fill
value. -/
noncomputable def kd_where_not_fillval (fillval : ℝ) (x : FP) : FP :=
  if feq x (FP.fin fillval) then FP.nan else x

/-- `ALANTile.apply_landmask`: cells whose land/sea code is not the sea code
255 are set to NaN, the rest keep their value
(`masked_arr[~(landmask == 255)] = np.nan`). -/
def apply_landmask {ι : Type} (lm : ι → ℤ) (in_arr : ι → FP) : ι → FP :=
  fun i => if lm i = 255 then in_arr i else FP.nan

/-- Step 1 of `ALANTile.calculate_z_thresh`, blue channel:
`cfg.M_BLUE * self.falchi_masked + cfg.C_BLUE`. -/
noncomputable def sfce_irr_blue (c : Config) (falchi : FP) : FP :=
  fadd (fmul (FP.fin c.M_BLUE) falchi) (FP.fin c.C_BLUE)

/-- Step 1 of `ALANTile.calculate_z_thresh`, green channel. -/
noncomputable def sfce_irr_green (c : Config) (falchi : FP) : FP :=
  fadd (fmul (FP.fin c.M_GREEN) falchi) (FP.fin c.C_GREEN)

/-- Step 1 of `ALANTile.calculate_z_thresh`, red channel. -/
noncomputable def sfce_irr_red (c : Config) (falchi : FP) : FP :=
  fadd (fmul (FP.fin c.M_RED) falchi) (FP.fin c.C_RED)

/-- Step 2 of `ALANTile.calculate_z_thresh`: the total irradiance
`blue + green + red` (numpy adds left to right). -/
noncomputable def sfce_irr_total (c : Config) (falchi : FP) : FP :=
  fadd (fadd (sfce_irr_blue c falchi) (sfce_irr_green c falchi))
    (sfce_irr_red c falchi)

/-- Step 3 of `ALANTile.calculate_z_thresh`: fractional spectral weight of the
blue channel, `sfce_irr_blue_uW_m2 / sfce_irr_total_uW_m2`. -/
noncomputable def R_blue (c : Config) (falchi : FP) : FP :=
  fdiv (sfce_irr_blue c falchi) (sfce_irr_total c falchi)

/-- Step 3, green channel. -/
noncomputable def R_green (c : Config) (falchi : FP) : FP :=
  fdiv (sfce_irr_green c falchi) (sfce_irr_total c falchi)

/-- Step 3, red channel. -/
noncomputable def R_red (c : Config) (falchi : FP) : FP :=
  fdiv (sfce_irr_red c falchi) (sfce_irr_total c falchi)

/-- The argument of the effective-attenuation logarithm:
`R_blue * exp(-1.0 * kd_blue) + R_green * exp(-1.0 * kd_green) +
R_red * exp(-1.0 * kd_red)`. -/
noncomputable def kd_log_expression (c : Config) (falchi kdB kdG kdR : FP) : FP :=
  fadd
    (fadd (fmul (R_blue c falchi) (fexp (fmul (FP.fin (-1)) kdB)))
      (fmul (R_green c falchi) (fexp (fmul (FP.fin (-1)) kdG))))
    (fmul (R_red c falchi) (fexp (fmul (FP.fin (-1)) kdR)))

/-- Step 4 of `ALANTile.calculate_z_thresh`, the first guard:
`np.where(np.logical_and(expr > 0., ~np.isnan(expr)), -1.0 * np.log(expr),
np.nan)`. -/
noncomputable def kd_total_raw (c : Config) (falchi kdB kdG kdR : FP) : FP :=
  if fgt (kd_log_expression c falchi kdB kdG kdR) (FP.fin 0)
      && !(isnan (kd_log_expression c falchi kdB kdG kdR)) then
    fmul (FP.fin (-1)) (flog (kd_log_expression c falchi kdB kdG kdR))
  else FP.nan

/-- The second guard of `ALANTile.calculate_z_thresh`:
`np.where(Kd_total > 0.0, Kd_total, np.nan)`. -/
noncomputable def kd_total (c : Config) (falchi kdB kdG kdR : FP) : FP :=
  if fgt (kd_total_raw c falchi kdB kdG kdR) (FP.fin 0) then
    kd_total_raw c falchi kdB kdG kdR
  else FP.nan

/-- Step 5 of `ALANTile.calculate_z_thresh`, before the land mask:
`(-1.0 / Kd_total) * np.log(cfg.THRESH_IRR_TOTAL_UW_M2 /
sfce_irr_total_uW_m2)`. -/
noncomputable def z_thresh_cell (c : Config) (falchi kdB kdG kdR : FP) : FP :=
  fmul (fdiv (FP.fin (-1)) (kd_total c falchi kdB kdG kdR))
    (flog (fdiv (FP.fin c.THRESH_IRR_TOTAL_UW_M2) (sfce_irr_total c falchi)))

/-- `ALANTile.calculate_z_thresh` on a whole grid (indexed by `ι`): the
elementwise critical-depth formula followed by `apply_landmask`. -/
noncomputable def calculate_z_thresh {ι : Type} (c : Config) (lm : ι → ℤ)
    (falchi kdB kdG kdR : ι → FP) : ι → FP :=
  apply_landmask lm
    (fun i => z_thresh_cell c (falchi i) (kdB i) (kdG i) (kdR i))

/-- Claim C4: for every finite brightness value `b` and threshold `t`, the
low-brightness masking `mask_falchi` returns NaN exactly where `b ≤ t`
(including equality) and returns the value unchanged where `b > t`; it is a
total function performing no other transformation. -/
theorem c4_mask_falchi_threshold (t b : ℝ) :
    (b ≤ t → mask_falchi t (FP.fin b) = FP.nan) ∧
    (t < b → mask_falchi t (FP.fin b) = FP.fin b) := by
  constructor
  · intro h
    simp [mask_falchi, h]
  · intro h
    simp [mask_falchi, not_le.mpr h]

/-- Witness for C4 at the boundary `b = t = 1` (masked to NaN) and at
`b = 2 > t = 1` (passed through). -/
theorem c4_mask_falchi_threshold_witness :
    mask_falchi 1 (FP.fin 1) = FP.nan ∧ mask_falchi 1 (FP.fin 2) = FP.fin 2 :=
  ⟨(c4_mask_falchi_threshold 1 1).1 (by norm_num),
   (c4_mask_falchi_threshold 1 2).2 (by norm_num)⟩

/-- Claim C8: the attenuation loader's scrub replaces, elementwise, every cell
equal to the fill-value constant with NaN, and leaves every cell not equal to
the fill value (including NaN cells, which IEEE-compare unequal) unchanged. -/
theorem c8_kd_fillval_scrub (fillval : ℝ) (x : FP) :
    (x = FP.fin fillval → kd_where_not_fillval fillval x = FP.nan) ∧
    (x ≠ FP.fin fillval → kd_where_not_fillval fillval x = x) := by
  constructor
  · intro h
    subst h
    simp [kd_where_not_fillval, feq]
  · intro h
    cases x with
    | nan => simp [kd_where_not_fillval, feq]
    | inf s => simp [kd_where_not_fillval, feq]
    | fin a =>
      have ha : a ≠ fillval := fun hc => h (by rw [hc])
      simp [kd_where_not_fillval, feq, ha]

/-- Witness for C8 with fill value `-999`: the fill value is scrubbed to NaN,
an ordinary value is kept. -/
theorem c8_kd_fillval_scrub_witness :
    kd_where_not_fillval (-999) (FP.fin (-999)) = FP.nan ∧
    kd_where_not_fillval (-999) (FP.fin 3) = FP.fin 3 :=
  ⟨(c8_kd_fillval_scrub (-999) (FP.fin (-999))).1 rfl,
   (c8_kd_fillval_scrub (-999) (FP.fin 3)).2 (by
      intro h
      have : (3 : ℝ) = -999 := by injection h
      norm_num at this)⟩

/-- Claim C3: every cell whose land/sea classification is not the sea code 255
is NaN in the final critical-depth output regardless of the computed value,
every sea-classified cell keeps its computed value, and applying the land mask
a second time leaves the output unchanged. -/
theorem c3_landmask_final {ι : Type} (c : Config) (lm : ι → ℤ)
    (falchi kdB kdG kdR : ι → FP) (i : ι) :
    (lm i ≠ 255 → calculate_z_thresh c lm falchi kdB kdG kdR i = FP.nan) ∧
    (lm i = 255 → calculate_z_thresh c lm falchi kdB kdG kdR i =
      z_thresh_cell c (falchi i) (kdB i) (kdG i) (kdR i)) ∧
    apply_landmask lm (calculate_z_thresh c lm falchi kdB kdG kdR) =
      calculate_z_thresh c lm falchi kdB kdG kdR := by
  refine ⟨?_, ?_, ?_⟩
  · intro h
    simp [calculate_z_thresh, apply_landmask, h]
  · intro h
    simp [calculate_z_thresh, apply_landmask, h]
  · funext j
    by_cases h : lm j = 255 <;>
      simp [calculate_z_thresh, apply_landmask, h]

/-- Witness for C3 on a two-cell grid: the land cell (code 0) is NaN in the
final output, the sea cell (code 255) keeps the computed value. -/
theorem c3_landmask_final_witness :
    calculate_z_thresh ⟨0, 0, 0, 0, 0, 0, 0⟩
      (fun i : ℕ => if i = 0 then 255 else 0) (fun _ => FP.fin 1)
      (fun _ => FP.fin 1) (fun _ => FP.fin 1) (fun _ => FP.fin 1) 1 = FP.nan ∧
    calculate_z_thresh ⟨0, 0, 0, 0, 0, 0, 0⟩
      (fun i : ℕ => if i = 0 then 255 else 0) (fun _ => FP.fin 1)
      (fun _ => FP.fin 1) (fun _ => FP.fin 1) (fun _ => FP.fin 1) 0 =
      z_thresh_cell ⟨0, 0, 0, 0, 0, 0, 0⟩ (FP.fin 1) (FP.fin 1) (FP.fin 1)
        (FP.fin 1) :=
  ⟨(c3_landmask_final ⟨0, 0, 0, 0, 0, 0, 0⟩ _ _ _ _ _ 1).1 (by norm_num),
   (c3_landmask_final ⟨0, 0, 0, 0, 0, 0, 0⟩ _ _ _ _ _ 0).2.1 (by norm_num)⟩

/-- Dividing a finite value by (positive) zero: NaN for `0/0`, otherwise a
signed infinity. -/
theorem fdiv_fin_zero (a : ℝ) :
    fdiv (FP.fin a) (FP.fin 0) =
      if a = 0 then FP.nan else FP.inf (decide (0 < a)) := by
  simp [fdiv]

/-- If the log-expression is NaN, both guards yield NaN. -/
theorem kd_total_of_log_nan (c : Config) (falchi kdB kdG kdR : FP)
    (h : kd_log_expression c falchi kdB kdG kdR = FP.nan) :
    kd_total c falchi kdB kdG kdR = FP.nan := by
  simp [kd_total, kd_total_raw, h]

/-- If `kd_total` is NaN at a cell, the depth formula gives NaN there:
`-1.0 / NaN` is NaN and NaN times anything is NaN. -/
theorem z_nan_of_kd_total_nan (c : Config) (falchi kdB kdG kdR : FP)
    (h : kd_total c falchi kdB kdG kdR = FP.nan) :
    z_thresh_cell c falchi kdB kdG kdR = FP.nan := by
  simp [z_thresh_cell, h]

/-- When the total irradiance at a cell is exactly zero, the argument of the
effective-attenuation logarithm is NaN: each weighted term is NaN or a signed
infinity, and either some term is NaN or infinities of both signs meet. -/
theorem kd_log_nan_of_total_zero (c : Config) (falchi kdB kdG kdR : FP)
    (h : sfce_irr_total c falchi = FP.fin 0) :
    kd_log_expression c falchi kdB kdG kdR = FP.nan := by
  obtain ⟨x, r, hbg, hr, hxr⟩ := fadd_eq_fin h
  obtain ⟨b, g, hb, hg, hbg2⟩ := fadd_eq_fin hbg
  have hsum : b + g + r = 0 := by linarith
  by_cases hb0 : b = 0
  · have hRb : R_blue c falchi = FP.nan := by
      rw [R_blue, hb, h, hb0, fdiv_fin_zero]
      simp
    simp [kd_log_expression, hRb]
  by_cases hg0 : g = 0
  · have hRg : R_green c falchi = FP.nan := by
      rw [R_green, hg, h, hg0, fdiv_fin_zero]
      simp
    simp [kd_log_expression, hRg]
  by_cases hr0 : r = 0
  · have hRr : R_red c falchi = FP.nan := by
      rw [R_red, hr, h, hr0, fdiv_fin_zero]
      simp
    simp [kd_log_expression, hRr]
  -- all three channel irradiances are nonzero, so all three weights are
  -- infinities whose signs cannot all agree
  have hRb : R_blue c falchi = FP.inf (decide (0 < b)) := by
    rw [R_blue, hb, h, fdiv_fin_zero]
    simp [hb0]
  have hRg : R_green c falchi = FP.inf (decide (0 < g)) := by
    rw [R_green, hg, h, fdiv_fin_zero]
    simp [hg0]
  have hRr : R_red c falchi = FP.inf (decide (0 < r)) := by
    rw [R_red, hr, h, fdiv_fin_zero]
    simp [hr0]
  rw [kd_log_expression, hRb, hRg, hRr]
  rcases fmul_inf_fexp (decide (0 < b)) (fmul (FP.fin (-1)) kdB) with htB | htB <;>
    rw [htB]
  · simp
  rcases fmul_inf_fexp (decide (0 < g)) (fmul (FP.fin (-1)) kdG) with htG | htG <;>
    rw [htG]
  · simp
  rcases fmul_inf_fexp (decide (0 < r)) (fmul (FP.fin (-1)) kdR) with htR | htR <;>
    rw [htR]
  · simp
  -- three infinities whose signs come from nonzero reals summing to zero
  have hb1 : decide (0 < b) = true ↔ 0 < b := by simp
  have hnot_all : ¬(decide (0 < b) = decide (0 < g) ∧
      decide (0 < g) = decide (0 < r)) := by
    rintro ⟨h1, h2⟩
    cases hsb : decide (0 < b) with
    | true =>
      rw [hsb] at h1; rw [← h1] at h2
      have pb : 0 < b := by simpa using hsb
      have pg : 0 < g := by simpa using h1.symm
      have pr : 0 < r := by simpa using h2.symm
      linarith
    | false =>
      rw [hsb] at h1; rw [← h1] at h2
      have pb : b < 0 :=
        lt_of_le_of_ne (by simpa using of_decide_eq_false hsb) hb0
      have pg : g < 0 :=
        lt_of_le_of_ne (by simpa using of_decide_eq_false h1.symm) hg0
      have pr : r < 0 :=
        lt_of_le_of_ne (by simpa using of_decide_eq_false h2.symm) hr0
      linarith
  by_cases hsbg : decide (0 < b) = decide (0 < g)
  · have hsgr : decide (0 < g) ≠ decide (0 < r) := fun hc =>
      hnot_all ⟨hsbg, hc⟩
    rw [show fadd (FP.inf (decide (0 < b))) (FP.inf (decide (0 < g))) =
        FP.inf (decide (0 < b)) from by simp [fadd, hsbg]]
    simp [fadd, hsbg.trans_ne hsgr]
  · rw [show fadd (FP.inf (decide (0 < b))) (FP.inf (decide (0 < g))) =
        FP.nan from by simp [fadd, hsbg]]
    simp

/-- Claim C10 (invariant after the two guards): every cell of `kd_total` is
either a strictly positive finite value or NaN, and wherever `kd_total` is NaN
the computed depth is NaN — so the division `-1.0 / Kd_total` never divides by
zero or by a negative number. -/
theorem c10_kd_total_positive_or_nan (c : Config) (falchi kdB kdG kdR : FP) :
    (kd_total c falchi kdB kdG kdR = FP.nan ∨
      ∃ v : ℝ, kd_total c falchi kdB kdG kdR = FP.fin v ∧ 0 < v) ∧
    (kd_total c falchi kdB kdG kdR = FP.nan →
      z_thresh_cell c falchi kdB kdG kdR = FP.nan) := by
  refine ⟨?_, z_nan_of_kd_total_nan c falchi kdB kdG kdR⟩
  cases hL : kd_log_expression c falchi kdB kdG kdR with
  | nan => exact Or.inl (kd_total_of_log_nan c falchi kdB kdG kdR hL)
  | inf s =>
    cases s with
    | false =>
      left
      simp [kd_total, kd_total_raw, hL, fgt]
    | true =>
      left
      have hraw : kd_total_raw c falchi kdB kdG kdR = FP.inf false := by
        have : fmul (FP.fin (-1)) (FP.inf true) = FP.inf false := by
          norm_num [fmul]
        simp [kd_total_raw, hL, fgt, isnan, flog, this]
      simp [kd_total, hraw, fgt]
  | fin v =>
    by_cases hv : 0 < v
    · have hraw : kd_total_raw c falchi kdB kdG kdR =
          FP.fin (-1 * Real.log v) := by
        simp [kd_total_raw, hL, fgt, isnan, hv, flog_fin_pos hv]
      by_cases hlog : 0 < -1 * Real.log v
      · refine Or.inr ⟨-1 * Real.log v, ?_, hlog⟩
        simp only [kd_total, hraw, fgt_fin_fin, decide_eq_true hlog, if_true]
      · left
        simp only [kd_total, hraw, fgt_fin_fin, decide_eq_false hlog,
          Bool.false_eq_true, if_false]
    · left
      have hraw : kd_total_raw c falchi kdB kdG kdR = FP.nan := by
        simp [kd_total_raw, hL, fgt, hv]
      simp [kd_total, hraw, fgt]

/-- Shared concrete computation: with all calibration constants zero and a
zero brightness cell, every channel irradiance is zero, the weights are
`0/0 = NaN`, and the log-expression is NaN. -/
theorem kd_log_cfg0 :
    kd_log_expression ⟨0, 0, 0, 0, 0, 0, 0⟩ (FP.fin 0) (FP.fin 0) (FP.fin 0)
      (FP.fin 0) = FP.nan := by
  have hb : sfce_irr_blue ⟨0, 0, 0, 0, 0, 0, 0⟩ (FP.fin 0) = FP.fin 0 := by
    simp [sfce_irr_blue]
  have ht : sfce_irr_total ⟨0, 0, 0, 0, 0, 0, 0⟩ (FP.fin 0) = FP.fin 0 := by
    simp [sfce_irr_total, sfce_irr_blue, sfce_irr_green, sfce_irr_red]
  have hRb : R_blue ⟨0, 0, 0, 0, 0, 0, 0⟩ (FP.fin 0) = FP.nan := by
    rw [R_blue, hb, ht, fdiv_fin_zero]
    simp
  simp [kd_log_expression, hRb]

/-- Witness for C10: at the concrete all-zero configuration the NaN branch of
the invariant is realised and the depth is NaN. -/
theorem c10_kd_total_positive_or_nan_witness :
    z_thresh_cell ⟨0, 0, 0, 0, 0, 0, 0⟩ (FP.fin 0) (FP.fin 0) (FP.fin 0)
      (FP.fin 0) = FP.nan :=
  (c10_kd_total_positive_or_nan ⟨0, 0, 0, 0, 0, 0, 0⟩ (FP.fin 0) (FP.fin 0)
    (FP.fin 0) (FP.fin 0)).2
    (kd_total_of_log_nan _ _ _ _ _ kd_log_cfg0)

/-- Claim C2: wherever the argument of the effective-attenuation logarithm is
non-positive, NaN or infinite, the guarded `kd_total` is NaN; and the second
guard replaces every value that is not strictly positive with NaN before the
division. -/
theorem c2_keff_guards (c : Config) (falchi kdB kdG kdR : FP) :
    ((isnan (kd_log_expression c falchi kdB kdG kdR) = true ∨
      (∃ s, kd_log_expression c falchi kdB kdG kdR = FP.inf s) ∨
      (∃ v : ℝ, kd_log_expression c falchi kdB kdG kdR = FP.fin v ∧ v ≤ 0)) →
      kd_total c falchi kdB kdG kdR = FP.nan) ∧
    (fgt (kd_total_raw c falchi kdB kdG kdR) (FP.fin 0) = false →
      kd_total c falchi kdB kdG kdR = FP.nan) := by
  constructor
  · rintro (hnan | ⟨s, hL⟩ | ⟨v, hL, hv⟩)
    · cases hL : kd_log_expression c falchi kdB kdG kdR with
      | nan => exact kd_total_of_log_nan c falchi kdB kdG kdR hL
      | inf s => rw [hL] at hnan; simp at hnan
      | fin v => rw [hL] at hnan; simp at hnan
    · cases s with
      | false => simp [kd_total, kd_total_raw, hL, fgt]
      | true =>
        have hraw : kd_total_raw c falchi kdB kdG kdR = FP.inf false := by
          have : fmul (FP.fin (-1)) (FP.inf true) = FP.inf false := by
            norm_num [fmul]
          simp [kd_total_raw, hL, fgt, isnan, flog, this]
        simp [kd_total, hraw, fgt]
    · have hraw : kd_total_raw c falchi kdB kdG kdR = FP.nan := by
        simp [kd_total_raw, hL, fgt, not_lt.mpr hv]
      simp [kd_total, hraw, fgt]
  · intro h
    simp [kd_total, h]

/-- Witness for C2: at the concrete all-zero configuration the log-expression
is NaN and `kd_total` is NaN. -/
theorem c2_keff_guards_witness :
    kd_total ⟨0, 0, 0, 0, 0, 0, 0⟩ (FP.fin 0) (FP.fin 0) (FP.fin 0)
      (FP.fin 0) = FP.nan :=
  (c2_keff_guards ⟨0, 0, 0, 0, 0, 0, 0⟩ (FP.fin 0) (FP.fin 0) (FP.fin 0)
    (FP.fin 0)).1 (Or.inl (by rw [kd_log_cfg0]; rfl))

/-- A concrete configuration showing that `E_total = 0` does not force every
spectral weight to be NaN: slopes `(1, -1, 0)`, intercepts zero. -/
noncomputable def cfg1 : Config := ⟨1, 0, -1, 0, 0, 0, 1⟩

/-- Counterexample to claim C1 as stated: at brightness 1 under `cfg1` the
total irradiance is exactly zero, yet the blue spectral weight is `1/0 = +∞`,
not NaN. -/
theorem c1_counterexample_R_not_nan :
    sfce_irr_total cfg1 (FP.fin 1) = FP.fin 0 ∧
    R_blue cfg1 (FP.fin 1) = FP.inf true := by
  have hb : sfce_irr_blue cfg1 (FP.fin 1) = FP.fin 1 := by
    simp [sfce_irr_blue, cfg1]
  have ht : sfce_irr_total cfg1 (FP.fin 1) = FP.fin 0 := by
    simp [sfce_irr_total, sfce_irr_blue, sfce_irr_green, sfce_irr_red, cfg1]
  refine ⟨ht, ?_⟩
  rw [R_blue, hb, ht, fdiv_fin_zero]
  norm_num

/-- Claim C1 (amended): at every cell where the total calibrated irradiance is
exactly zero, each spectral weight is NaN or a signed infinity — NaN exactly
where the channel irradiance is itself zero — no exception is raised, the
non-finite weights propagate through steps 4–5, and the final depth at that
cell is NaN. -/
theorem c1_etotal_zero_nan_depth (c : Config) (falchi kdB kdG kdR : FP)
    (h : sfce_irr_total c falchi = FP.fin 0) :
    z_thresh_cell c falchi kdB kdG kdR = FP.nan ∧
    (R_blue c falchi = FP.nan ∨ ∃ s, R_blue c falchi = FP.inf s) ∧
    (R_green c falchi = FP.nan ∨ ∃ s, R_green c falchi = FP.inf s) ∧
    (R_red c falchi = FP.nan ∨ ∃ s, R_red c falchi = FP.inf s) ∧
    (sfce_irr_blue c falchi = FP.fin 0 → R_blue c falchi = FP.nan) ∧
    (sfce_irr_green c falchi = FP.fin 0 → R_green c falchi = FP.nan) ∧
    (sfce_irr_red c falchi = FP.fin 0 → R_red c falchi = FP.nan) := by
  obtain ⟨x, r, hbg, hr, hxr⟩ := fadd_eq_fin h
  obtain ⟨b, g, hb, hg, hbg2⟩ := fadd_eq_fin hbg
  refine ⟨?_, ?_, ?_, ?_, ?_, ?_, ?_⟩
  · exact z_nan_of_kd_total_nan c falchi kdB kdG kdR
      (kd_total_of_log_nan c falchi kdB kdG kdR
        (kd_log_nan_of_total_zero c falchi kdB kdG kdR h))
  · rw [R_blue, hb, h, fdiv_fin_zero]
    by_cases hb0 : b = 0 <;> simp [hb0]
  · rw [R_green, hg, h, fdiv_fin_zero]
    by_cases hg0 : g = 0 <;> simp [hg0]
  · rw [R_red, hr, h, fdiv_fin_zero]
    by_cases hr0 : r = 0 <;> simp [hr0]
  · intro hEb
    rw [R_blue, hEb, h, fdiv_fin_zero]
    simp
  · intro hEg
    rw [R_green, hEg, h, fdiv_fin_zero]
    simp
  · intro hEr
    rw [R_red, hEr, h, fdiv_fin_zero]
    simp

/-- Witness for C1 (amended) at `cfg1`, brightness 1: the total irradiance is
zero and the depth is NaN. -/
theorem c1_etotal_zero_nan_depth_witness :
    z_thresh_cell cfg1 (FP.fin 1) (FP.fin 1) (FP.fin 1) (FP.fin 1) =
      FP.nan :=
  (c1_etotal_zero_nan_depth cfg1 (FP.fin 1) (FP.fin 1) (FP.fin 1) (FP.fin 1)
    (by
      simp [sfce_irr_total, sfce_irr_blue, sfce_irr_green, sfce_irr_red,
        cfg1])).1

/-- Claim C5: where the three channel attenuation coefficients all equal the
same positive `k` and the total irradiance is a positive finite `e`, the
effective coefficient `kd_total` equals `k` exactly, and the depth formula
reduces to the single-channel Beer-Lambert solution
`Z = (-1/k) * ln(T / E_total)`. -/
theorem c5_degenerate_channel (c : Config) (falchi : FP) (k e : ℝ)
    (hk : 0 < k) (he : 0 < e) (ht : 0 < c.THRESH_IRR_TOTAL_UW_M2)
    (hE : sfce_irr_total c falchi = FP.fin e) :
    kd_total c falchi (FP.fin k) (FP.fin k) (FP.fin k) = FP.fin k ∧
    z_thresh_cell c falchi (FP.fin k) (FP.fin k) (FP.fin k) =
      FP.fin (-1 / k * Real.log (c.THRESH_IRR_TOTAL_UW_M2 / e)) := by
  obtain ⟨x, r, hbg, hr, hxr⟩ := fadd_eq_fin hE
  obtain ⟨b, g, hb, hg, hbg2⟩ := fadd_eq_fin hbg
  have hsum : b + g + r = e := by linarith
  have hRb : R_blue c falchi = FP.fin (b / e) := by
    rw [R_blue, hb, hE, fdiv_fin_fin_of_ne b he.ne']
  have hRg : R_green c falchi = FP.fin (g / e) := by
    rw [R_green, hg, hE, fdiv_fin_fin_of_ne g he.ne']
  have hRr : R_red c falchi = FP.fin (r / e) := by
    rw [R_red, hr, hE, fdiv_fin_fin_of_ne r he.ne']
  have hL : kd_log_expression c falchi (FP.fin k) (FP.fin k) (FP.fin k) =
      FP.fin (Real.exp (-1 * k)) := by
    rw [kd_log_expression, hRb, hRg, hRr]
    simp only [fmul_fin_fin, fexp_fin, fadd_fin_fin]
    congr 1
    have hw : b / e + g / e + r / e = 1 := by
      field_simp
      linarith
    calc b / e * Real.exp (-1 * k) + g / e * Real.exp (-1 * k) +
          r / e * Real.exp (-1 * k)
        = (b / e + g / e + r / e) * Real.exp (-1 * k) := by ring
      _ = 1 * Real.exp (-1 * k) := by rw [hw]
      _ = Real.exp (-1 * k) := one_mul _
  have hexp_pos : 0 < Real.exp (-1 * k) := Real.exp_pos _
  have hraw : kd_total_raw c falchi (FP.fin k) (FP.fin k) (FP.fin k) =
      FP.fin k := by
    simp only [kd_total_raw, hL, fgt_fin_fin, isnan_fin, Bool.not_false,
      Bool.and_true, decide_eq_true hexp_pos, if_true,
      flog_fin_pos hexp_pos, Real.log_exp, fmul_fin_fin]
    congr 1
    ring
  have hkd : kd_total c falchi (FP.fin k) (FP.fin k) (FP.fin k) =
      FP.fin k := by
    simp only [kd_total, hraw, fgt_fin_fin, decide_eq_true hk, if_true]
  refine ⟨hkd, ?_⟩
  rw [z_thresh_cell, hkd, hE, fdiv_fin_fin_of_ne (-1) hk.ne',
    fdiv_fin_fin_of_ne c.THRESH_IRR_TOTAL_UW_M2 he.ne',
    flog_fin_pos (div_pos ht he), fmul_fin_fin]

/-- A concrete degenerate configuration for the Beer-Lambert witness: unit
slopes, zero intercepts, unit threshold irradiance. -/
noncomputable def cfg5 : Config := ⟨1, 0, 1, 0, 1, 0, 1⟩

/-- Witness for C5 at `cfg5`, brightness 1, `k = 1`, `E_total = 3`. -/
theorem c5_degenerate_channel_witness :
    kd_total cfg5 (FP.fin 1) (FP.fin 1) (FP.fin 1) (FP.fin 1) = FP.fin 1 ∧
    z_thresh_cell cfg5 (FP.fin 1) (FP.fin 1) (FP.fin 1) (FP.fin 1) =
      FP.fin (-1 / 1 * Real.log (cfg5.THRESH_IRR_TOTAL_UW_M2 / 3)) :=
  c5_degenerate_channel cfg5 (FP.fin 1) 1 3 one_pos (by norm_num)
    (by norm_num [cfg5])
    (by norm_num [sfce_irr_total, sfce_irr_blue, sfce_irr_green,
      sfce_irr_red, cfg5])

/-- A 2D raster as handled by `fill_and_regrid`: two coordinate vectors and a
data plane (indexed latitude-first, like the numpy arrays in the source). -/
structure DataArr where
  lon : List ℚ
  lat : List ℚ
  data : ℕ → ℕ → FP

instance : Inhabited DataArr := ⟨⟨[], [], fun _ _ => FP.nan⟩⟩

/-- Whether a coordinate falls inside the closed span of a coordinate
vector — the domain on which `pyinterp`'s bivariate interpolator produces
values; outside it, with its default bounds handling, it produces NaN. -/
def inRange (l : List ℚ) (x : ℚ) : Bool :=
  match l.min?, l.max? with
  | some a, some b => decide (a ≤ x ∧ x ≤ b)
  | _, _ => false

/-- The 3×3 index window used by the loess gap fill (`nx=3, ny=3`). -/
def window3 (g : DataArr) (j i : ℕ) : List FP :=
  (((List.range 3).map (fun dj =>
    (List.range 3).map (fun di => g.data (j + dj - 1) (i + di - 1)))).flatten)

/-- Local mean of the non-NaN values in the 3×3 window, used to fill a NaN
cell; stays NaN when the whole window is NaN. -/
noncomputable def windowMean (g : DataArr) (j i : ℕ) : FP :=
  let vs := (window3 g j i).filter (fun v => !(isnan v))
  if vs.length = 0 then FP.nan
  else fdiv (vs.foldl fadd (FP.fin 0)) (FP.fin (vs.length : ℝ))

/-- Model of `pyinterp.fill.loess(grid, nx=3, ny=3)`: NaN cells are replaced
by a local average of their 3×3 neighbourhood, other cells are untouched; the
coordinate vectors are unchanged. -/
noncomputable def loessFill (g : DataArr) : DataArr :=
  { g with data := fun j i =>
      if isnan (g.data j i) then windowMean g j i else g.data j i }

/-- Index of the grid cell bracketing a coordinate from below (for an
ascending coordinate vector). -/
def cellIdx (l : List ℚ) (x : ℚ) : ℕ :=
  (l.filter (fun c => decide (c ≤ x))).length - 1

/-- Bilinear interpolation between the four grid points bracketing the query
point, the default interpolator of `pyinterp`'s `bivariate`. -/
noncomputable def interpAt (g : DataArr) (x y : ℚ) : FP :=
  let i := cellIdx g.lon x
  let j := cellIdx g.lat y
  let x0 := g.lon.getD i x
  let x1 := g.lon.getD (i + 1) x0
  let y0 := g.lat.getD j y
  let y1 := g.lat.getD (j + 1) y0
  let wx : ℚ := if x1 = x0 then 0 else (x - x0) / (x1 - x0)
  let wy : ℚ := if y1 = y0 then 0 else (y - y0) / (y1 - y0)
  fadd
    (fadd (fmul (FP.fin (((1 - wx) * (1 - wy) : ℚ) : ℝ)) (g.data j i))
      (fmul (FP.fin ((wx * (1 - wy) : ℚ) : ℝ)) (g.data j (i + 1))))
    (fadd (fmul (FP.fin (((1 - wx) * wy : ℚ) : ℝ)) (g.data (j + 1) i))
      (fmul (FP.fin ((wx * wy : ℚ) : ℝ)) (g.data (j + 1) (i + 1))))

/-- Model of `Grid2D.bivariate` at one target point, with `pyinterp`'s
default bounds handling: interpolate inside the source span, NaN outside. -/
noncomputable def bivariateAt (g : DataArr) (x y : ℚ) : FP :=
  if inRange g.lon x && inRange g.lat y then interpAt g x y else FP.nan

/-- Modelled from the spec: the `RegridFailure` error of the spec's error
taxonomy.  The source defines no such exception; the type exists so the
claim about raising it can be stated. -/
inductive RegridError where
  | regridFailure : RegridError

/-- `fill_and_regrid` from `alan_tools/alan_tile.py`: loess gap fill of the
source raster, then bivariate interpolation at every target coordinate pair.
The result type admits a `RegridError`, but the source has no failure path:
`pyinterp`'s `bivariate` is called with its default bounds handling, which
yields NaN for target points outside the source domain instead of raising. -/
noncomputable def fill_and_regrid (in_arr : DataArr) (tlon tlat : List ℚ) :
    Except RegridError (ℕ → ℕ → FP) :=
  Except.ok (fun j i =>
    bivariateAt (loessFill in_arr) (tlon.getD i 0) (tlat.getD j 0))

/-- A source raster spanning longitude and latitude `[0, 1]`, wholly disjoint
from the target points `{10, 11} × {10, 11}` used in the C6 counterexample. -/
noncomputable def c6src : DataArr := ⟨[0, 1], [0, 1], fun _ _ => FP.fin 1⟩

/-- Counterexample to claim C6 as stated: with zero overlap between source
and target, `fill_and_regrid` does not fail with `RegridFailure` — it
returns normally, and every returned cell is NaN. -/
theorem c6_counterexample_no_raise :
    (fill_and_regrid c6src [10, 11] [10, 11]).toOption.isSome = true ∧
    ((fill_and_regrid c6src [10, 11] [10, 11]).toOption.getD
      (fun _ _ => FP.fin 0)) 0 0 = FP.nan ∧
    ((fill_and_regrid c6src [10, 11] [10, 11]).toOption.getD
      (fun _ _ => FP.fin 0)) 0 1 = FP.nan ∧
    ((fill_and_regrid c6src [10, 11] [10, 11]).toOption.getD
      (fun _ _ => FP.fin 0)) 1 0 = FP.nan ∧
    ((fill_and_regrid c6src [10, 11] [10, 11]).toOption.getD
      (fun _ _ => FP.fin 0)) 1 1 = FP.nan := by
  refine ⟨rfl, ?_, ?_, ?_, ?_⟩ <;>
    · show bivariateAt (loessFill c6src) _ _ = FP.nan
      rw [bivariateAt]
      norm_num [inRange, loessFill, c6src]

/-- Claim C6 (amended): if the source raster has zero overlap with the target
domain, `fill_and_regrid` does not raise; it returns normally with a grid
whose every cell is NaN. -/
theorem c6_zero_overlap_all_nan (in_arr : DataArr) (tlon tlat : List ℚ)
    (h : (∀ x ∈ tlon, inRange in_arr.lon x = false) ∨
      (∀ y ∈ tlat, inRange in_arr.lat y = false)) :
    ∃ gr, fill_and_regrid in_arr tlon tlat = Except.ok gr ∧
      ∀ j i, j < tlat.length → i < tlon.length → gr j i = FP.nan := by
  refine ⟨_, rfl, ?_⟩
  intro j i hj hi
  have hlon : (loessFill in_arr).lon = in_arr.lon := rfl
  have hlat : (loessFill in_arr).lat = in_arr.lat := rfl
  rcases h with h | h
  · have hx : tlon.getD i 0 ∈ tlon := by
      rw [List.getD_eq_getElem?_getD, List.getElem?_eq_getElem hi]
      exact List.getElem_mem hi
    have hfalse : inRange in_arr.lon (tlon[i]?.getD 0) = false := by
      rw [← List.getD_eq_getElem?_getD]
      exact h _ hx
    simp [bivariateAt, hlon, hfalse]
  · have hy : tlat.getD j 0 ∈ tlat := by
      rw [List.getD_eq_getElem?_getD, List.getElem?_eq_getElem hj]
      exact List.getElem_mem hj
    have hfalse : inRange in_arr.lat (tlat[j]?.getD 0) = false := by
      rw [← List.getD_eq_getElem?_getD]
      exact h _ hy
    simp [bivariateAt, hlat, hfalse]

/-- Witness for C6 (amended) at the concrete zero-overlap input of the
counterexample. -/
theorem c6_zero_overlap_all_nan_witness :
    ∃ gr, fill_and_regrid c6src [10, 11] [10, 11] = Except.ok gr ∧
      ∀ j i, j < ([10, 11] : List ℚ).length →
        i < ([10, 11] : List ℚ).length → gr j i = FP.nan :=
  c6_zero_overlap_all_nan c6src [10, 11] [10, 11]
    (Or.inl (by
      intro x hx
      fin_cases hx <;> rfl))

/-- Allocation/mutation model of the body of `fill_and_regrid`, over a heap
of array objects addressed by index.  The steps mirror the source lines:
`filled = pyinterp.fill.loess(grid, nx=3, ny=3)` allocates a fresh numpy
array (transposed convention); `filled_ds = in_arr.copy()` allocates a copy
of the input; `filled_ds.data = filled.T` mutates only that fresh copy;
`regridded = interpolator.bivariate(...).reshape(...)` allocates the result,
of which the returned `regridded.T` is a view (same object). -/
noncomputable def fill_and_regrid_heap (h : List DataArr)
    (inId tlonId tlatId : ℕ) : List DataArr × ℕ :=
  let in_arr := h.getD inId default
  let tlon := (h.getD tlonId default).lon
  let tlat := (h.getD tlatId default).lat
  let h1 := h ++ [⟨[], [], fun i j => (loessFill in_arr).data j i⟩]
  let h2 := h1 ++ [in_arr]
  let filled_ds : DataArr :=
    { in_arr with data := fun j i => (h2.getD h.length default).data i j }
  let h3 := h2.set (h.length + 1) filled_ds
  let h4 := h3 ++ [⟨[], [],
    fun j i => bivariateAt (h3.getD (h.length + 1) default)
      (tlon.getD i 0) (tlat.getD j 0)⟩]
  (h4, h.length + 2)

/-- Every pre-existing heap cell survives the body of `fill_and_regrid`
unchanged: the only write targets the freshly allocated copy. -/
theorem heap_prefix_preserved (h : List DataArr) (A B C D : DataArr) (k : ℕ)
    (hk : k < h.length) :
    ((((h ++ [A]) ++ [B]).set (h.length + 1) C) ++ [D])[k]? = h[k]? := by
  have e1 : ((((h ++ [A]) ++ [B]).set (h.length + 1) C) ++ [D])[k]? =
      (((h ++ [A]) ++ [B]).set (h.length + 1) C)[k]? :=
    List.getElem?_append_left (by simp; omega)
  have e2 : (((h ++ [A]) ++ [B]).set (h.length + 1) C)[k]? =
      ((h ++ [A]) ++ [B])[k]? := List.getElem?_set_ne (by omega)
  have e3 : ((h ++ [A]) ++ [B])[k]? = (h ++ [A])[k]? :=
    List.getElem?_append_left (by simp; omega)
  have e4 : (h ++ [A])[k]? = h[k]? := List.getElem?_append_left hk
  rw [e1, e2, e3, e4]

/-- Claim C9: the regrid operation never mutates its inputs — every heap
object that existed before the call (in particular the source array with its
coordinate vectors, and the target coordinate vectors) is identical
afterwards, and the returned grid is a newly allocated object distinct from
all inputs. -/
theorem c9_fill_and_regrid_no_mutation (h : List DataArr)
    (inId tlonId tlatId : ℕ) (hin : inId < h.length)
    (hlon : tlonId < h.length) (hlat : tlatId < h.length) :
    (∀ k, k < h.length →
      ((fill_and_regrid_heap h inId tlonId tlatId).1)[k]? = h[k]?) ∧
    (fill_and_regrid_heap h inId tlonId tlatId).2 = h.length + 2 ∧
    inId ≠ (fill_and_regrid_heap h inId tlonId tlatId).2 ∧
    tlonId ≠ (fill_and_regrid_heap h inId tlonId tlatId).2 ∧
    tlatId ≠ (fill_and_regrid_heap h inId tlonId tlatId).2 := by
  have h2eq : (fill_and_regrid_heap h inId tlonId tlatId).2 =
      h.length + 2 := rfl
  refine ⟨?_, h2eq, ?_, ?_, ?_⟩
  · intro k hk
    exact heap_prefix_preserved h _ _ _ _ k hk
  · rw [h2eq]; omega
  · rw [h2eq]; omega
  · rw [h2eq]; omega

/-- Witness for C9 on a concrete three-object heap (source at 0, target
longitudes at 1, target latitudes at 2). -/
theorem c9_fill_and_regrid_no_mutation_witness :
    (∀ k, k < ([default, default, default] : List DataArr).length →
      ((fill_and_regrid_heap [default, default, default] 0 1 2).1)[k]? =
        ([default, default, default] : List DataArr)[k]?) ∧
    (fill_and_regrid_heap ([default, default, default] : List DataArr)
      0 1 2).2 = ([default, default, default] : List DataArr).length + 2 ∧
    0 ≠ (fill_and_regrid_heap ([default, default, default] : List DataArr)
      0 1 2).2 ∧
    1 ≠ (fill_and_regrid_heap ([default, default, default] : List DataArr)
      0 1 2).2 ∧
    2 ≠ (fill_and_regrid_heap ([default, default, default] : List DataArr)
      0 1 2).2 :=
  c9_fill_and_regrid_no_mutation [default, default, default] 0 1 2
    (by simp) (by simp) (by simp)

/-- The batch loop of `GetAlanTiles.py`: process units in order; each unit
either produces an output or fails.  The source loop body has no exception
handling, so a failure propagates and ends the whole loop: no further unit is
processed and only the first error is reported. -/
def runBatch {U O E : Type} (compute : U → Except E O) :
    List U → List O × Option E
  | [] => ([], none)
  | u :: rest =>
    match compute u with
    | Except.error e => ([], some e)
    | Except.ok o =>
      let r := runBatch compute rest
      (o :: r.1, r.2)

/-- The driver surface of `GetAlanTiles.py`: the Cartesian product of the
requested regions and months, iterated region-major exactly like the nested
`for` loops of the source. -/
def batch_units (regions months : List String) : List (String × String) :=
  (regions.map (fun r => months.map (fun m => (r, m)))).flatten

/-- The `GetAlanTiles.py` main loop over regions × months. -/
def get_alan_tiles {O E : Type} (regions months : List String)
    (compute : String × String → Except E O) : List O × Option E :=
  runBatch compute (batch_units regions months)

/-- A tile computation that fails on month "01" and succeeds elsewhere, for
the C7 counterexample. -/
def c7compute : String × String → Except Nat (String × String) :=
  fun u => if u.2 = "01" then Except.error 7 else Except.ok u

/-- Counterexample to claim C7 as stated: with units ("A","01"), ("A","02")
and a failure on the first, the driver produces no output for the second unit
even though computing it would succeed — the loop aborts at the failure and
reports only the propagated error, not a per-unit outcome summary. -/
theorem c7_counterexample_abort :
    get_alan_tiles ["A"] ["01", "02"] c7compute = ([], some 7) ∧
    c7compute ("A", "02") = Except.ok ("A", "02") := ⟨rfl, rfl⟩

/-- Claim C7 (amended): a fatal failure while computing one unit aborts the
whole batch run at that unit — units before it complete normally, units after
it are never processed, and the only reported outcome is the propagated
error. -/
theorem c7_batch_aborts_at_first_failure {U O E : Type}
    (compute : U → Except E O) (pre post : List U) (u : U) (e : E)
    (hpre : ∀ v ∈ pre, ∃ o, compute v = Except.ok o)
    (hu : compute u = Except.error e) :
    ∃ os, runBatch compute (pre ++ u :: post) = (os, some e) ∧
      os.length = pre.length := by
  induction pre with
  | nil =>
    refine ⟨[], ?_, rfl⟩
    simp [runBatch, hu]
  | cons v rest ih =>
    obtain ⟨o, ho⟩ := hpre v (List.mem_cons_self v rest)
    obtain ⟨os, hos, hlen⟩ := ih (fun w hw => hpre w (List.mem_cons_of_mem v hw))
    refine ⟨o :: os, ?_, by simp [hlen]⟩
    simp [runBatch, ho, hos]

/-- Witness for C7 (amended): two successful units before a failing one,
one unit after it; the run yields exactly the two early outputs and the
error. -/
theorem c7_batch_aborts_at_first_failure_witness :
    ∃ os, runBatch (fun n : Nat => if n = 5 then Except.error 9 else
      Except.ok n) ([1, 2] ++ 5 :: [3]) = (os, some 9) ∧
      os.length = ([1, 2] : List Nat).length :=
  c7_batch_aborts_at_first_failure
    (fun n : Nat => if n = 5 then Except.error 9 else Except.ok n)
    [1, 2] [3] 5 9
    (by
      intro v hv
      fin_cases hv <;> exact ⟨_, rfl⟩)
    rfl

end ALAN
